import Mathlib

/-!
Shallow embedding of the linearization core of the MisoRobotics/gtsam
repository: the block-structured vector container `VectorValues`
(gtsam/linear/VectorValues.h) and the AD-based `ExpressionFactor`
(gtsam_unstable/nonlinear/ExpressionFactor.h), together with proofs of the
specification's claims about them.

Machine doubles are embedded as exact rationals (`ℚ`); vectors are lists of
rationals and matrices are lists of rows.
-/

namespace GtsamSpec

/-- The two C++ exception classes thrown by the embedded code:
`outOfRange` embeds `std::out_of_range` (the spec's NotFound) and
`invalidArgument` embeds `std::invalid_argument` (the spec's
InvalidArgument / DuplicateKey). -/
inductive CppError where
  | outOfRange
  | invalidArgument
deriving DecidableEq, Repr

/-- A numeric vector (`gtsam::Vector`, Eigen dense vector of doubles). -/
abbrev Vec := List ℚ

/-- A numeric matrix as a list of rows (`gtsam::Matrix`). -/
abbrev Mat := List (List ℚ)

/-- Elementwise vector addition (Eigen `operator+` on equally sized vectors). -/
def vecAdd (a b : Vec) : Vec := List.zipWith (· + ·) a b

/-- Elementwise vector subtraction (Eigen `operator-`). -/
def vecSub (a b : Vec) : Vec := List.zipWith (· - ·) a b

/-- Elementwise vector negation (Eigen unary `operator-`). -/
def vecNeg (a : Vec) : Vec := a.map (fun q => -q)

/-- `gtsam::VectorValues`: a collection of vector values keyed by unique
integer indices, embedded as an association list from `Key` (a `Nat`) to the
stored vector.  The C++ backing store is `ConcurrentMap<Key, Vector>`; lookup
semantics are those of `List.lookup` (first matching key). -/
abbrev VectorValues := List (Nat × Vec)

/-- `VectorValues::size()`: number of variables stored. -/
def VectorValues.size (v : VectorValues) : Nat := v.length

/-- `VectorValues::exists(Key)`: presence test, `find(j) != end()`. -/
def VectorValues.containsKey (v : VectorValues) (j : Nat) : Bool :=
  (List.lookup j v).isSome

/-- `VectorValues::at(Key)`: returns the stored vector, and throws
`std::out_of_range` when the key is absent. -/
def VectorValues.at' (v : VectorValues) (j : Nat) : Except CppError Vec :=
  match List.lookup j v with
  | some x => .ok x
  | none => .error .outOfRange

/-- `VectorValues::insert(Key, Vector)`: throws `std::invalid_argument` when
the key is already present (`values_.insert` reporting no insertion),
otherwise stores the new pair. -/
def VectorValues.insert (v : VectorValues) (j : Nat) (value : Vec) :
    Except CppError VectorValues :=
  if (List.lookup j v).isSome then .error .invalidArgument
  else .ok (v ++ [(j, value)])

/-- `VectorValues::erase(Key)`: `values_.unsafe_erase(var)` removes the entry
when present; when it removed nothing the code throws
`std::invalid_argument` (even though its own doc comment announces
`std::out_of_range`). -/
def VectorValues.erase (v : VectorValues) (var : Nat) :
    Except CppError VectorValues :=
  if (List.lookup var v).isSome then
    .ok (v.filter (fun p => !(p.1 == var)))
  else .error .invalidArgument

/-- Modelled from the spec: `VectorValues::update(const VectorValues&)` is
declared in the header but implemented in a source file not in the
repository snapshot.  Per the header doc and §4.1 of the spec: for every
key in `other`, overwrite this container's block with `other`'s; throw
NotFound (`std::out_of_range`) if any key of `other` is absent here; add no
new keys. -/
def VectorValues.update (self other : VectorValues) :
    Except CppError VectorValues :=
  if other.all (fun p => (List.lookup p.1 self).isSome) then
    .ok (self.map (fun p => (p.1, (List.lookup p.1 other).getD p.2)))
  else .error .outOfRange

/-- Modelled from the spec: `VectorValues::Zero(other)` is declared in the
header but implemented in a source file not in the repository snapshot.
Per §4.1 of the spec: a new container with identical structure to `other`,
all entries zero. -/
def VectorValues.Zero (other : VectorValues) : VectorValues :=
  other.map (fun p => (p.1, List.replicate p.2.length 0))

/-- Modelled from the spec: `VectorValues::hasSameStructure` is declared in
the header but implemented in a source file not in the repository snapshot.
Per §3 of the spec: same key set and, for each key, identical vector
dimension. -/
def VectorValues.hasSameStructure (a b : VectorValues) : Bool :=
  (a.map Prod.fst).all
      (fun k => ((List.lookup k a).map List.length) == ((List.lookup k b).map List.length))
    && (b.map Prod.fst).all
      (fun k => ((List.lookup k a).map List.length) == ((List.lookup k b).map List.length))

/-- Modelled from the spec: `VectorValues::add` is declared in the header but
implemented in a source file not in the repository snapshot.  Per §4.1 of
the spec: independent per-block elementwise addition, assuming matching
structure (the `getD []` default is never reached under that contract). -/
def VectorValues.add (a b : VectorValues) : VectorValues :=
  a.map (fun p => (p.1, vecAdd p.2 ((List.lookup p.1 b).getD [])))

/-- Modelled from the spec: `VectorValues::subtract` is declared in the
header but implemented in a source file not in the repository snapshot.
Per §4.1 of the spec: independent per-block elementwise subtraction,
assuming matching structure. -/
def VectorValues.subtract (a b : VectorValues) : VectorValues :=
  a.map (fun p => (p.1, vecSub p.2 ((List.lookup p.1 b).getD [])))

/-! ### Association-list lemmas -/

theorem lookup_map_value (f : Nat → Vec → Vec) (l : List (Nat × Vec)) (k : Nat) :
    List.lookup k (l.map (fun p => (p.1, f p.1 p.2))) = (List.lookup k l).map (f k) := by
  induction l with
  | nil => rfl
  | cons p t ih =>
    simp only [List.map_cons, List.lookup]
    cases h : k == p.1 with
    | true =>
      have hk : k = p.1 := eq_of_beq h
      subst hk
      simp
    | false => simpa using ih

theorem lookup_some_mem {l : List (Nat × Vec)} {k : Nat} {v : Vec}
    (h : List.lookup k l = some v) : (k, v) ∈ l := by
  induction l with
  | nil => simp [List.lookup] at h
  | cons p t ih =>
    simp only [List.lookup] at h
    cases hk : k == p.1 with
    | true =>
      rw [hk] at h
      simp only [Option.some.injEq] at h
      have : k = p.1 := eq_of_beq hk
      subst this
      subst h
      exact List.mem_cons_self _ _
    | false =>
      rw [hk] at h
      exact List.mem_cons_of_mem _ (ih h)

theorem lookup_isSome_memKeys {l : List (Nat × Vec)} {k : Nat}
    (h : (List.lookup k l).isSome = true) : k ∈ l.map Prod.fst := by
  cases hl : List.lookup k l with
  | none => rw [hl] at h; simp at h
  | some v =>
    exact List.mem_map.mpr ⟨(k, v), lookup_some_mem hl, rfl⟩

theorem hasSameStructure_lookup {a b : VectorValues}
    (h : VectorValues.hasSameStructure a b = true) (k : Nat) :
    (List.lookup k a).map List.length = (List.lookup k b).map List.length := by
  unfold VectorValues.hasSameStructure at h
  rw [Bool.and_eq_true] at h
  obtain ⟨h1, h2⟩ := h
  rw [List.all_eq_true] at h1 h2
  cases ha : List.lookup k a with
  | some va =>
    have hmem : k ∈ a.map Prod.fst :=
      lookup_isSome_memKeys (by rw [ha]; rfl)
    have := h1 k hmem
    rw [beq_iff_eq] at this
    rw [← this, ha]
  | none =>
    cases hb : List.lookup k b with
    | none => rfl
    | some vb =>
      have hmem : k ∈ b.map Prod.fst :=
        lookup_isSome_memKeys (by rw [hb]; rfl)
      have := h2 k hmem
      rw [beq_iff_eq] at this
      rw [ha, hb] at this
      simp at this

/-! ### Vector arithmetic lemmas -/

theorem vecAdd_comm (a b : Vec) : vecAdd a b = vecAdd b a := by
  unfold vecAdd
  induction a generalizing b with
  | nil => cases b <;> rfl
  | cons x xs ih =>
    cases b with
    | nil => rfl
    | cons y ys => simp [List.zipWith, ih, add_comm]

theorem vecSub_vecAdd_cancel {a b : Vec} (h : a.length = b.length) :
    vecSub (vecAdd a b) b = a := by
  unfold vecAdd vecSub
  induction a generalizing b with
  | nil => cases b <;> simp
  | cons x xs ih =>
    cases b with
    | nil => simp at h
    | cons y ys =>
      simp only [List.length_cons, Nat.succ.injEq] at h
      simp [List.zipWith, ih h]

/-! ### ExpressionFactor embedding -/

/-- `gtsam::DefaultChart<T>` together with `traits::dimension<T>::value`:
the tangent dimension of `T` and the local chart
`local(origin, other) → tangent vector`. -/
structure Chart (T : Type) where
  dim : Nat
  localCoords : T → T → Vec

/-- `gtsam::Expression<T>` — an external collaborator per §6 of the spec.  It
exposes its dependent keys with their Jacobian block widths
(`keysAndDims()`), plain evaluation `value(x)` (`valueFn`), and evaluation
with reverse-AD Jacobians `value(x, jacobianMap)`, embedded as returning
`valueFn x` while the blocks it adds into the previously zeroed block
matrix are `jacFn x` (one `dim × dims[i]` block per key). -/
structure Expression (V T : Type) where
  keys : List Nat
  dims : List Nat
  valueFn : V → T
  jacFn : V → List Mat

/-- The noise-model collaborator (§6 of the spec): residual dimension
`dim()`, the `is_constrained()` flag, and the in-place `WhitenSystem`
transform on the full augmented matrix. -/
structure NoiseModel where
  dim : Nat
  is_constrained : Bool
  whitenSystem : Mat → Mat

/-- `noiseModel::Unit::Create(n)`: unit (identity covariance) noise model,
whose whitening transform is the identity. -/
def NoiseModel.unit (n : Nat) : NoiseModel :=
  { dim := n, is_constrained := false, whitenSystem := id }

/-- `gtsam::JacobianFactor` as produced by `ExpressionFactor::linearize`:
keys, block widths, the augmented (whitened) block matrix `Ab_`, and the
optional stored noise model.  `model = some n` embeds the unit noise model
of dimension `n` handed to the constructor in the constrained branch
(`Constrained::unit()` returns `Unit::Create(dim())`); `model = none`
embeds the constructor call without a noise model. -/
structure JacobianFactor where
  keys : List Nat
  dims : List Nat
  mat : Mat
  model : Option Nat

/-- The RHS vector `b` of a `JacobianFactor`: the trailing augmented column
of `Ab_`. -/
def JacobianFactor.getb (f : JacobianFactor) : Vec :=
  f.mat.map (fun row => row.getLastD 0)

/-- `gtsam::ExpressionFactor<T>` state after construction (all immutable):
measurement, expression, noise model, the keys and Jacobian block widths
extracted once from the expression, and `augmentedCols_`.  The activity
predicate `active(x)` comes from the `NonlinearFactor` base class, which is
not part of the repository snapshot; modelled from the spec's
"robust/switchable gating predicate" as a boolean field. -/
structure ExpressionFactor (V T : Type) where
  measurement : T
  expression : Expression V T
  noiseModel : NoiseModel
  keys : List Nat
  dimensions : List Nat
  augmentedCols : Nat
  active : V → Bool

/-- The `ExpressionFactor` constructor: throws `std::invalid_argument` when
no noise model is supplied or when `noiseModel->dim() != Dim`; otherwise
stores the measurement and expression, extracts `keysAndDims()` once, and
sets `augmentedCols_ = accumulate(dims, 1)`. -/
def ExpressionFactor.create (C : Chart T) (noiseModel : Option NoiseModel)
    (measurement : T) (expression : Expression V T) (act : V → Bool) :
    Except CppError (ExpressionFactor V T) :=
  match noiseModel with
  | none => .error .invalidArgument
  | some nm =>
    if nm.dim ≠ C.dim then .error .invalidArgument
    else
      .ok { measurement := measurement, expression := expression,
            noiseModel := nm, keys := expression.keys,
            dimensions := expression.dims,
            augmentedCols := expression.dims.sum + 1, active := act }

/-- The state of the `VerticalBlockMatrix` of width `sum dims` after being
zeroed (`Ab.matrix().setZero()`) and written to by reverse-mode AD
(`expression_.value(x, map)`): row `r` is the horizontal concatenation of
row `r` of each Jacobian block. -/
def assembleNoRhs (blocks : List Mat) (nrows : Nat) : Mat :=
  (List.range nrows).map (fun r => (blocks.map (fun B => B.getD r [])).flatten)

/-- The augmented `VerticalBlockMatrix` of `linearize` after the AD write and
`Ab(size()).col(0) = -chart.local(measurement_, value)`: each row carries
the concatenated Jacobian block rows followed by the single RHS entry. -/
def assembleAb (blocks : List Mat) (rhs : Vec) (nrows : Nat) : Mat :=
  (List.range nrows).map
    (fun r => (blocks.map (fun B => B.getD r [])).flatten ++ [rhs.getD r 0])

/-- The trailing column of an augmented block matrix. -/
def lastCol (m : Mat) : Vec := m.map (fun row => row.getLastD 0)

/-- Reading block `i` of a `VerticalBlockMatrix` with block widths `dims`
(`Ab(i)`): columns `sum dims[0..i)` to `sum dims[0..i) + dims[i]` of every
row. -/
def extractBlock (dims : List Nat) (i : Nat) (m : Mat) : Mat :=
  m.map (fun row => (row.drop ((dims.take i).sum)).take (dims.getD i 0))

/-- `ExpressionFactor::unwhitenedError(x)` (no Jacobian request): evaluate
the expression and return `chart.local(measurement_, value)`. -/
def ExpressionFactor.unwhitenedError (C : Chart T) (f : ExpressionFactor V T)
    (x : V) : Vec :=
  C.localCoords f.measurement (f.expression.valueFn x)

/-- `ExpressionFactor::unwhitenedError(x, H)`: allocate
`VerticalBlockMatrix Ab(dimensions_, Dim)`, zero it, evaluate the
expression with reverse AD writing into it, copy the blocks `Ab(i)` for
`i < size()` into `H`, and return `chart.local(measurement_, value)`. -/
def ExpressionFactor.unwhitenedErrorH (C : Chart T) (f : ExpressionFactor V T)
    (x : V) : Vec × List Mat :=
  let Ab := assembleNoRhs (f.expression.jacFn x) C.dim
  (C.localCoords f.measurement (f.expression.valueFn x),
    (List.range f.keys.length).map (fun i => extractBlock f.dimensions i Ab))

/-- `ExpressionFactor::linearize(x)`: return the null pointer when
`!active(x)`; otherwise build the `JacobianFactor` (with the
`Constrained::unit()` substitute model when the noise model is
constrained), zero `Ab`, evaluate with reverse AD, write
`-chart.local(measurement_, value)` into the augmented column, and whiten
the whole system in place with `noiseModel_->WhitenSystem`. -/
def ExpressionFactor.linearize (C : Chart T) (f : ExpressionFactor V T)
    (x : V) : Option JacobianFactor :=
  if f.active x = false then none
  else
    let value := f.expression.valueFn x
    let Ab := assembleAb (f.expression.jacFn x)
        (vecNeg (C.localCoords f.measurement value)) C.dim
    some { keys := f.keys, dims := f.dimensions,
           mat := f.noiseModel.whitenSystem Ab,
           model := if f.noiseModel.is_constrained
                    then some f.noiseModel.dim else none }

/-! ### Block-matrix assembly lemmas -/

theorem range_map_getD {α : Type} (l : List α) (d : α) :
    (List.range l.length).map (fun r => l.getD r d) = l := by
  induction l with
  | nil => rfl
  | cons x xs ih =>
    rw [List.length_cons, List.range_succ_eq_map, List.map_cons, List.map_map]
    have hc : ((fun r => (x :: xs).getD r d) ∘ Nat.succ) = fun r => xs.getD r d := by
      funext r
      simp
    rw [hc, ih]
    simp

theorem getD_map_getD (blocks : List Mat) (r j : Nat) :
    (blocks.map (fun B => B.getD r [])).getD j [] = (blocks.getD j []).getD r [] := by
  induction blocks generalizing j with
  | nil => simp
  | cons B bs ih =>
    cases j with
    | zero => simp
    | succ j => simpa using ih j

theorem flatten_drop_take (pieces : List (List ℚ)) (ws : List Nat) (i : Nat)
    (hlen : pieces.length = ws.length)
    (hw : ∀ j, (pieces.getD j []).length = ws.getD j 0)
    (hi : i < pieces.length) :
    (pieces.flatten.drop ((ws.take i).sum)).take (ws.getD i 0) = pieces.getD i [] := by
  induction i generalizing pieces ws with
  | zero =>
    cases pieces with
    | nil => simp at hi
    | cons p ps =>
      cases ws with
      | nil => simp at hlen
      | cons w ws' =>
        have hp : p.length = w := by simpa using hw 0
        simp only [List.take_zero, List.sum_nil, List.drop_zero, List.flatten_cons,
          List.getD_cons_zero]
        rw [← hp, List.take_left]
  | succ i ih =>
    cases pieces with
    | nil => simp at hi
    | cons p ps =>
      cases ws with
      | nil => simp at hlen
      | cons w ws' =>
        have hp : p.length = w := by simpa using hw 0
        simp only [List.take_succ_cons, List.sum_cons, List.flatten_cons,
          List.getD_cons_succ]
        rw [← hp, List.drop_append]
        exact ih ps ws' (by simpa using hlen) (fun j => by simpa using hw (j + 1))
          (by simpa using hi)

theorem extractBlock_assembleNoRhs (blocks : List Mat) (dims : List Nat)
    (nrows i : Nat)
    (hlen : blocks.length = dims.length)
    (hrows : (blocks.getD i []).length = nrows)
    (hw : ∀ j, j < blocks.length → ∀ r, r < nrows →
      ((blocks.getD j []).getD r []).length = dims.getD j 0)
    (hi : i < blocks.length) :
    extractBlock dims i (assembleNoRhs blocks nrows) = blocks.getD i [] := by
  unfold extractBlock assembleNoRhs
  rw [List.map_map]
  have hpt : ∀ r ∈ List.range nrows,
      ((fun row => (row.drop ((dims.take i).sum)).take (dims.getD i 0)) ∘
        (fun r => (blocks.map (fun B => B.getD r [])).flatten)) r
        = (blocks.getD i []).getD r [] := by
    intro r hr
    have hrn : r < nrows := List.mem_range.mp hr
    show (((blocks.map (fun B => B.getD r [])).flatten.drop
        ((dims.take i).sum)).take (dims.getD i 0)) = (blocks.getD i []).getD r []
    have h1 : (blocks.map (fun B => B.getD r [])).length = dims.length := by
      simpa using hlen
    have h2 : ∀ j, ((blocks.map (fun B => B.getD r [])).getD j []).length
        = dims.getD j 0 := by
      intro j
      rw [getD_map_getD]
      by_cases hj : j < blocks.length
      · exact hw j hj r hrn
      · push_neg at hj
        have hb : blocks.getD j [] = [] := List.getD_eq_default _ _ hj
        have hd : dims.getD j 0 = 0 :=
          List.getD_eq_default _ _ (by rw [← hlen]; exact hj)
        rw [hb, hd]
        simp
    rw [flatten_drop_take _ dims i h1 h2 (by rw [h1, ← hlen]; exact hi)]
    rw [getD_map_getD]
  rw [List.map_congr_left hpt, ← hrows]
  exact range_map_getD _ _

theorem lastCol_assembleAb (blocks : List Mat) (rhs : Vec) (nrows : Nat)
    (h : rhs.length = nrows) :
    lastCol (assembleAb blocks rhs nrows) = rhs := by
  unfold lastCol assembleAb
  rw [List.map_map]
  have hpt : ∀ r ∈ List.range nrows,
      ((fun row => row.getLastD 0) ∘
        (fun r => (blocks.map (fun B => B.getD r [])).flatten ++ [rhs.getD r 0])) r
        = rhs.getD r 0 := by
    intro r _
    exact List.getLastD_concat _ _ _
  rw [List.map_congr_left hpt, ← h]
  exact range_map_getD rhs 0

/-! ### Concrete fixtures used by the witnesses -/

/-- A two-dimensional vector chart: `local(origin, other) = other - origin`
(gtsam's `DefaultChart` on plain vectors). -/
def exChart : Chart Vec :=
  { dim := 2, localCoords := fun a b => vecSub b a }

/-- The identity expression `h(x) = x` over the single key `0` of width 2,
whose reverse-AD Jacobian is the 2×2 identity. -/
def exExpr : Expression VectorValues Vec :=
  { keys := [0], dims := [2],
    valueFn := fun x => (List.lookup 0 x).getD [],
    jacFn := fun _ => [[[1, 0], [0, 1]]] }

/-- A factor with unit noise model measuring `z = [1, 2]` through `exExpr`,
always active. -/
def exFactor : ExpressionFactor VectorValues Vec :=
  { measurement := [1, 2], expression := exExpr, noiseModel := NoiseModel.unit 2,
    keys := [0], dimensions := [2], augmentedCols := 3, active := fun _ => true }

/-- A constrained noise model of dimension 2 (whitening left as identity,
which `linearize`'s constrained branch never consults for the stored
model). -/
def exConstrainedModel : NoiseModel :=
  { dim := 2, is_constrained := true, whitenSystem := id }

/-- `exFactor` with the constrained noise model. -/
def exFactorC : ExpressionFactor VectorValues Vec :=
  { exFactor with noiseModel := exConstrainedModel }

/-- `exFactor` with an activity predicate that is false everywhere. -/
def exFactorInactive : ExpressionFactor VectorValues Vec :=
  { exFactor with active := fun _ => false }

/-- A concrete assignment `x = {0 ↦ [3, 5]}`. -/
def exAssign : VectorValues := [(0, [3, 5])]

/-! ### Claims about ExpressionFactor -/

/-- C1: for every active `ExpressionFactor`, `linearize` writes
`-local(z, h(x))` — the negated tangent-space residual, i.e. the negation
of `unwhitenedError` — into the augmented RHS column of the block matrix
before whitening, and with a unit noise model the returned factor's RHS
vector equals `unwhitenedError` negated. -/
theorem ExpressionFactor.linearize_rhs_neg_residual (C : Chart T)
    (f : ExpressionFactor V T) (x : V)
    (hact : f.active x = true)
    (hres : (ExpressionFactor.unwhitenedError C f x).length = C.dim) :
    lastCol (assembleAb (f.expression.jacFn x)
        (vecNeg (ExpressionFactor.unwhitenedError C f x)) C.dim)
      = vecNeg (ExpressionFactor.unwhitenedError C f x) ∧
    ExpressionFactor.linearize C f x = some
      { keys := f.keys, dims := f.dimensions,
        mat := f.noiseModel.whitenSystem (assembleAb (f.expression.jacFn x)
          (vecNeg (ExpressionFactor.unwhitenedError C f x)) C.dim),
        model := if f.noiseModel.is_constrained then some f.noiseModel.dim
                 else none } ∧
    (f.noiseModel = NoiseModel.unit C.dim →
      (ExpressionFactor.linearize C f x).map JacobianFactor.getb
        = some (vecNeg (ExpressionFactor.unwhitenedError C f x))) := by
  have hlin : ExpressionFactor.linearize C f x = some
      { keys := f.keys, dims := f.dimensions,
        mat := f.noiseModel.whitenSystem (assembleAb (f.expression.jacFn x)
          (vecNeg (ExpressionFactor.unwhitenedError C f x)) C.dim),
        model := if f.noiseModel.is_constrained then some f.noiseModel.dim
                 else none } := by
    unfold ExpressionFactor.linearize
    rw [hact]
    rfl
  have hlast : lastCol (assembleAb (f.expression.jacFn x)
      (vecNeg (ExpressionFactor.unwhitenedError C f x)) C.dim)
      = vecNeg (ExpressionFactor.unwhitenedError C f x) := by
    apply lastCol_assembleAb
    unfold vecNeg
    rw [List.length_map]
    exact hres
  refine ⟨hlast, hlin, fun hu => ?_⟩
  rw [hlin]
  simp only [Option.map_some']
  rw [hu]
  exact congrArg some hlast

/-- C1 witness: the identity factor with unit noise at `x = {0 ↦ [3, 5]}`
has RHS equal to its `unwhitenedError`, negated. -/
theorem ExpressionFactor.linearize_rhs_neg_residual_witness :
    (ExpressionFactor.linearize exChart exFactor exAssign).map JacobianFactor.getb
      = some (vecNeg (ExpressionFactor.unwhitenedError exChart exFactor exAssign)) :=
  (ExpressionFactor.linearize_rhs_neg_residual exChart exFactor exAssign
    (by decide) (by decide)).2.2 rfl

/-- C2: `linearize` returns the empty (null) result exactly when the
activity predicate reports inactive at the assignment — a normal `none`
outcome, not an error and not an all-zero factor. -/
theorem ExpressionFactor.linearize_inactive_none (C : Chart T)
    (f : ExpressionFactor V T) (x : V) :
    ExpressionFactor.linearize C f x = none ↔ f.active x = false := by
  unfold ExpressionFactor.linearize
  cases h : f.active x <;> simp [h]

/-- C3: for an active factor, the `JacobianFactor` produced by `linearize`
carries the substitute unit noise model `Constrained::unit()` (of the
constrained model's dimension) exactly when the noise model is constrained,
and carries no model on the generic whitening path. -/
theorem ExpressionFactor.linearize_constrained_unit (C : Chart T)
    (f : ExpressionFactor V T) (x : V) (hact : f.active x = true) :
    (f.noiseModel.is_constrained = true →
      (ExpressionFactor.linearize C f x).map JacobianFactor.model
        = some (some f.noiseModel.dim)) ∧
    (f.noiseModel.is_constrained = false →
      (ExpressionFactor.linearize C f x).map JacobianFactor.model
        = some none) := by
  unfold ExpressionFactor.linearize
  rw [hact]
  constructor
  · intro hc
    simp [hc]
  · intro hc
    simp [hc]

/-- C3 witness: at `x = {0 ↦ [3, 5]}` the constrained-model factor yields a
`JacobianFactor` storing the unit model of dimension 2; the unconstrained
one stores no model. -/
theorem ExpressionFactor.linearize_constrained_unit_witness :
    (ExpressionFactor.linearize exChart exFactorC exAssign).map JacobianFactor.model
      = some (some 2) ∧
    (ExpressionFactor.linearize exChart exFactor exAssign).map JacobianFactor.model
      = some none :=
  ⟨(ExpressionFactor.linearize_constrained_unit exChart exFactorC exAssign rfl).1 rfl,
   (ExpressionFactor.linearize_constrained_unit exChart exFactor exAssign rfl).2 rfl⟩

/-- C4: constructing an `ExpressionFactor` throws `std::invalid_argument`
exactly when no noise model is supplied or the supplied model's dimension
differs from the tangent dimension `Dim` of `T`; otherwise construction
succeeds and stores the keys and dimensions extracted from the expression
together with `augmentedCols = sum dims + 1`. -/
theorem ExpressionFactor.create_invalidArgument_iff (C : Chart T) (z : T)
    (e : Expression V T) (act : V → Bool) :
    (ExpressionFactor.create C none z e act
      = (.error .invalidArgument : Except CppError (ExpressionFactor V T))) ∧
    (∀ m : NoiseModel, m.dim ≠ C.dim →
      ExpressionFactor.create C (some m) z e act = .error .invalidArgument) ∧
    (∀ m : NoiseModel, m.dim = C.dim →
      ExpressionFactor.create C (some m) z e act =
        .ok { measurement := z, expression := e, noiseModel := m,
              keys := e.keys, dimensions := e.dims,
              augmentedCols := e.dims.sum + 1, active := act }) := by
  refine ⟨rfl, fun m hm => ?_, fun m hm => ?_⟩
  · simp [ExpressionFactor.create, hm]
  · simp [ExpressionFactor.create, hm]

/-- C4 witness: creation with no model fails, with a 1-dimensional model on
the 2-dimensional chart fails, and with the unit model of dimension 2
succeeds and extracts keys `[0]` and dims `[2]`. -/
theorem ExpressionFactor.create_invalidArgument_iff_witness :
    (ExpressionFactor.create exChart none ([1, 2] : Vec) exExpr (fun _ => true)
      = .error .invalidArgument) ∧
    (ExpressionFactor.create exChart (some (NoiseModel.unit 1)) ([1, 2] : Vec)
        exExpr (fun _ => true) = .error .invalidArgument) ∧
    (ExpressionFactor.create exChart (some (NoiseModel.unit 2)) ([1, 2] : Vec)
        exExpr (fun _ => true) =
      .ok { measurement := [1, 2], expression := exExpr,
            noiseModel := NoiseModel.unit 2, keys := exExpr.keys,
            dimensions := exExpr.dims, augmentedCols := exExpr.dims.sum + 1,
            active := fun _ => true }) :=
  ⟨(ExpressionFactor.create_invalidArgument_iff exChart [1, 2] exExpr
      (fun _ => true)).1,
   (ExpressionFactor.create_invalidArgument_iff exChart [1, 2] exExpr
      (fun _ => true)).2.1 (NoiseModel.unit 1) (by decide),
   (ExpressionFactor.create_invalidArgument_iff exChart [1, 2] exExpr
      (fun _ => true)).2.2 (NoiseModel.unit 2) rfl⟩

/-- C10: with a correctly pre-allocated Jacobian buffer, `unwhitenedError`
returns the same residual as the buffer-less overload, and — the block
matrix having been zeroed before evaluation — the buffer receives exactly
the Jacobian blocks written by the expression. -/
theorem ExpressionFactor.unwhitenedError_jacobian_consistent (C : Chart T)
    (f : ExpressionFactor V T) (x : V)
    (hkeys : f.keys.length = (f.expression.jacFn x).length)
    (hlen : (f.expression.jacFn x).length = f.dimensions.length)
    (hrows : ∀ j, j < (f.expression.jacFn x).length →
      ((f.expression.jacFn x).getD j []).length = C.dim)
    (hw : ∀ j, j < (f.expression.jacFn x).length → ∀ r, r < C.dim →
      (((f.expression.jacFn x).getD j []).getD r []).length
        = f.dimensions.getD j 0) :
    ExpressionFactor.unwhitenedErrorH C f x
      = (ExpressionFactor.unwhitenedError C f x, f.expression.jacFn x) := by
  unfold ExpressionFactor.unwhitenedErrorH ExpressionFactor.unwhitenedError
  refine Prod.ext rfl ?_
  show (List.range f.keys.length).map
      (fun i => extractBlock f.dimensions i
        (assembleNoRhs (f.expression.jacFn x) C.dim)) = f.expression.jacFn x
  rw [hkeys]
  have hpt : ∀ i ∈ List.range (f.expression.jacFn x).length,
      extractBlock f.dimensions i (assembleNoRhs (f.expression.jacFn x) C.dim)
        = (f.expression.jacFn x).getD i [] := by
    intro i hi
    have hii : i < (f.expression.jacFn x).length := List.mem_range.mp hi
    exact extractBlock_assembleNoRhs _ _ _ _ hlen (hrows i hii) hw hii
  rw [List.map_congr_left hpt]
  exact range_map_getD _ _

/-- C10 witness: the identity factor at `x = {0 ↦ [3, 5]}` returns the
residual `[2, 3]` both with and without a Jacobian buffer, and the buffer
receives exactly the identity block. -/
theorem ExpressionFactor.unwhitenedError_jacobian_consistent_witness :
    ExpressionFactor.unwhitenedErrorH exChart exFactor exAssign
      = (ExpressionFactor.unwhitenedError exChart exFactor exAssign,
         exFactor.expression.jacFn exAssign) :=
  ExpressionFactor.unwhitenedError_jacobian_consistent exChart exFactor exAssign
    (by decide) (by decide) (by decide) (by decide)

/-! ### Claims about VectorValues -/

/-- Association-list lemma: appending entries after a list in which the key
is absent makes lookup fall through to the appended entries. -/
theorem lookup_append_right {v : VectorValues} {j : Nat}
    (h : List.lookup j v = none) (t : VectorValues) :
    List.lookup j (v ++ t) = List.lookup j t := by
  induction v with
  | nil => rfl
  | cons p ps ih =>
    cases hk : j == p.1 with
    | true =>
      simp only [List.lookup, hk] at h
      exact Option.noConfusion h
    | false =>
      simp only [List.cons_append, List.lookup, hk] at h ⊢
      exact ih h

/-- C5 (code bug): `erase` on an absent key throws `std::invalid_argument`,
not the `std::out_of_range` (NotFound) class that `at` throws and that both
the spec and the code's own doc comment announce; the success half of the
claim (erase then absent) does hold. -/
theorem VectorValues.erase_error_class_mismatch :
    VectorValues.erase ([] : VectorValues) 0 = .error .invalidArgument ∧
    VectorValues.at' ([] : VectorValues) 0 = .error .outOfRange ∧
    CppError.invalidArgument ≠ CppError.outOfRange ∧
    VectorValues.erase [(0, [1])] 0 = .ok [] ∧
    VectorValues.containsKey ([] : VectorValues) 0 = false := by
  refine ⟨rfl, rfl, by decide, rfl, rfl⟩

/-- C6: a successful `update other` overwrites exactly the blocks of keys
present in `other`, leaves all other keys unchanged (hence adds no keys),
and `update` fails with NotFound whenever some key of `other` is absent
from the target. -/
theorem VectorValues.update_spec (self other : VectorValues) :
    ((∃ k w, List.lookup k other = some w ∧ List.lookup k self = none) →
      VectorValues.update self other = .error .outOfRange) ∧
    (∀ r, VectorValues.update self other = .ok r →
      (∀ k w, List.lookup k other = some w → List.lookup k r = some w) ∧
      (∀ k, List.lookup k other = none →
        List.lookup k r = List.lookup k self)) := by
  constructor
  · rintro ⟨k, w, hko, hks⟩
    have hcond : ¬ (other.all (fun p => (List.lookup p.1 self).isSome) = true) := by
      intro hall
      rw [List.all_eq_true] at hall
      have h2 := hall (k, w) (lookup_some_mem hko)
      rw [hks] at h2
      simp at h2
    unfold VectorValues.update
    rw [if_neg hcond]
  · intro r hr
    unfold VectorValues.update at hr
    by_cases hc : other.all (fun p => (List.lookup p.1 self).isSome) = true
    · rw [if_pos hc] at hr
      simp only [Except.ok.injEq] at hr
      subst hr
      rw [List.all_eq_true] at hc
      constructor
      · intro k w hko
        rw [lookup_map_value (fun k v => (List.lookup k other).getD v) self k]
        have hs := hc (k, w) (lookup_some_mem hko)
        simp only at hs
        cases hsk : List.lookup k self with
        | none => rw [hsk] at hs; simp at hs
        | some vs => simp [hko]
      · intro k hko
        rw [lookup_map_value (fun k v => (List.lookup k other).getD v) self k]
        cases hsk : List.lookup k self with
        | none => rfl
        | some vs => simp [hko]
    · rw [if_neg hc] at hr
      cases hr

/-- Fixture: target container `{0 ↦ [1, 2], 1 ↦ [3]}`. -/
def exVV1 : VectorValues := [(0, [1, 2]), (1, [3])]

/-- Fixture: update source `{0 ↦ [7, 8]}`. -/
def exVV2 : VectorValues := [(0, [7, 8])]

/-- Fixture: the result of updating `exVV1` by `exVV2`. -/
def exUpdated : VectorValues := [(0, [7, 8]), (1, [3])]

/-- C6 witness: updating `{0 ↦ [1,2], 1 ↦ [3]}` with `{0 ↦ [7,8]}`
overwrites key 0 and leaves key 1 untouched. -/
theorem VectorValues.update_spec_witness :
    List.lookup 0 exUpdated = some [7, 8] ∧
    List.lookup 1 exUpdated = List.lookup 1 exVV1 :=
  ⟨((VectorValues.update_spec exVV1 exVV2).2 exUpdated rfl).1 0 [7, 8] rfl,
   ((VectorValues.update_spec exVV1 exVV2).2 exUpdated rfl).2 1 rfl⟩

/-- C7: `insert` on a key already present throws `std::invalid_argument`
(DuplicateKey); on an absent key it succeeds and a subsequent `at` on that
key returns the inserted vector unchanged. -/
theorem VectorValues.insert_duplicate_and_roundtrip (v : VectorValues)
    (j : Nat) (x : Vec) :
    ((List.lookup j v).isSome = true →
      VectorValues.insert v j x = .error .invalidArgument) ∧
    (List.lookup j v = none →
      VectorValues.insert v j x = .ok (v ++ [(j, x)]) ∧
      VectorValues.at' (v ++ [(j, x)]) j = .ok x) := by
  constructor
  · intro h
    unfold VectorValues.insert
    rw [if_pos h]
  · intro h
    constructor
    · unfold VectorValues.insert
      rw [if_neg (by rw [h]; simp)]
    · unfold VectorValues.at'
      rw [lookup_append_right h]
      simp [List.lookup]

/-- C7 witness: inserting key 0 into `{0 ↦ [1,2], 1 ↦ [3]}` fails with
`std::invalid_argument`; inserting key 5 succeeds and `at 5` returns the
inserted vector. -/
theorem VectorValues.insert_duplicate_and_roundtrip_witness :
    VectorValues.insert exVV1 0 [9] = .error .invalidArgument ∧
    VectorValues.at' (exVV1 ++ [(5, [9])]) 5 = .ok [9] :=
  ⟨(VectorValues.insert_duplicate_and_roundtrip exVV1 0 [9]).1 rfl,
   ((VectorValues.insert_duplicate_and_roundtrip exVV1 5 [9]).2 rfl).2⟩

/-- C8: `Zero(a)` has exactly the structure of `a` — the same keys, each
block replaced by the all-zero vector of the same dimension. -/
theorem VectorValues.Zero_structure_and_zero (a : VectorValues) :
    VectorValues.hasSameStructure (VectorValues.Zero a) a = true ∧
    ∀ k, List.lookup k (VectorValues.Zero a)
        = (List.lookup k a).map (fun v => List.replicate v.length 0) := by
  have hl : ∀ k, List.lookup k (VectorValues.Zero a)
      = (List.lookup k a).map (fun v => List.replicate v.length 0) :=
    fun k => lookup_map_value (fun _ v => List.replicate v.length 0) a k
  refine ⟨?_, hl⟩
  unfold VectorValues.hasSameStructure
  rw [Bool.and_eq_true]
  constructor <;>
    · rw [List.all_eq_true]
      intro k _
      rw [hl k]
      cases List.lookup k a <;> simp

/-- C9: for structurally matching containers, per-block addition is
commutative and `(a+b)-b` recovers `a` exactly (the embedding computes over
exact rationals). -/
theorem VectorValues.add_comm_and_cancel (a b : VectorValues)
    (h : VectorValues.hasSameStructure a b = true) :
    (∀ k, List.lookup k (VectorValues.add a b)
        = List.lookup k (VectorValues.add b a)) ∧
    (∀ k, List.lookup k (VectorValues.subtract (VectorValues.add a b) b)
        = List.lookup k a) := by
  have hst := hasSameStructure_lookup h
  constructor
  · intro k
    unfold VectorValues.add
    rw [lookup_map_value (fun k v => vecAdd v ((List.lookup k b).getD [])) a k,
      lookup_map_value (fun k v => vecAdd v ((List.lookup k a).getD [])) b k]
    cases ha : List.lookup k a with
    | none =>
      have := hst k
      rw [ha] at this
      cases hb : List.lookup k b with
      | none => rfl
      | some vb => rw [hb] at this; simp at this
    | some va =>
      have := hst k
      rw [ha] at this
      cases hb : List.lookup k b with
      | none => rw [hb] at this; simp at this
      | some vb =>
        simp only [Option.map_some', Option.getD_some]
        rw [vecAdd_comm]
  · intro k
    unfold VectorValues.subtract VectorValues.add
    rw [lookup_map_value (fun k v => vecSub v ((List.lookup k b).getD []))
        (a.map (fun p => (p.1, vecAdd p.2 ((List.lookup p.1 b).getD [])))) k,
      lookup_map_value (fun k v => vecAdd v ((List.lookup k b).getD [])) a k]
    cases ha : List.lookup k a with
    | none => rfl
    | some va =>
      have := hst k
      rw [ha] at this
      cases hb : List.lookup k b with
      | none => rw [hb] at this; simp at this
      | some vb =>
        rw [hb] at this
        simp only [Option.map_some'] at this
        simp only [Option.map_some', Option.getD_some, hb]
        rw [vecSub_vecAdd_cancel (by simpa using this)]

/-- Fixture: first operand `{0 ↦ [1, 2], 3 ↦ [4]}`. -/
def exVA : VectorValues := [(0, [1, 2]), (3, [4])]

/-- Fixture: second operand `{0 ↦ [5, 6], 3 ↦ [7]}` (same structure). -/
def exVB : VectorValues := [(0, [5, 6]), (3, [7])]

/-- C9 witness: on `{0 ↦ [1,2], 3 ↦ [4]}` and `{0 ↦ [5,6], 3 ↦ [7]}`,
`a+b` and `b+a` agree at key 0 and `(a+b)-b` returns `a`'s block there. -/
theorem VectorValues.add_comm_and_cancel_witness :
    List.lookup 0 (VectorValues.add exVA exVB)
      = List.lookup 0 (VectorValues.add exVB exVA) ∧
    List.lookup 0 (VectorValues.subtract (VectorValues.add exVA exVB) exVB)
      = List.lookup 0 exVA :=
  ⟨(VectorValues.add_comm_and_cancel exVA exVB (by decide)).1 0,
   (VectorValues.add_comm_and_cancel exVA exVB (by decide)).2 0⟩

end GtsamSpec
